import Mathlib

/-!
# Verification of the modulish-bot plugin lifecycle and remote installer

Shallow embedding of the plugin lifecycle subsystem (`main.py`) and of the
remote plugin installer (`plugins/plugin_manager/downloader.py`), with
theorems settling the behavioural claims about them.

Modelling conventions:
* Filesystem and network effects are modelled by explicit world records
  (which files exist, whether a manifest parses, what each candidate URL
  yields) and, for the installer, by an explicit trace of filesystem
  operations performed in program order.
* Executing a plugin's module code (`spec.loader.exec_module`) is foreign
  code; it is modelled as an oracle that either succeeds or raises.
* Python's `dict` registry is modelled as an association list with
  dict-style update and removal (the key is replaced / filtered out).
-/

namespace Modulish

/-- The parsed `[plugin]` section of a `plugin.toml` manifest:
`name` (optional string), `main` (optional string), `enabled` (optional bool).
`none` means the key is absent from the file. -/
structure ManifestData where
  name : Option String
  main : Option String
  enabled : Option Bool
  deriving DecidableEq, Repr

/-- `PluginMeta` mirrors the metadata dict built by `load_plugin_metadata`
in `main.py` (the opaque `raw` passthrough is omitted: no claim observes it). -/
structure PluginMeta where
  name : String
  main : String
  enabled : Bool
  dir : String
  deriving DecidableEq, Repr

/-- Outcome of executing the plugin's entry module (foreign code):
it either runs to completion or raises. -/
inductive ExecOutcome where
  | success
  | raises
  deriving DecidableEq, Repr

/-- The world a single `load_plugin(bot, name)` call observes for the
directory `plugins/<name>`: whether the directory exists, the manifest
contents (`none` = unreadable or unparsable), which files exist inside the
directory (relative paths), whether `importlib` can build a spec/loader for
the entry file, what executing the module does, and the current `sys.path`. -/
structure PluginWorld where
  dirExists : Bool
  manifest : Option ManifestData
  files : List String
  specOk : Bool
  execOutcome : ExecOutcome
  sysPath : List String

/-- `load_plugin_metadata(plugin_dir)` from `main.py`. `dirName` is the base
name of the plugin directory.  Mirrors the source: a missing/unreadable
manifest yields `None`; `name = meta.get('name') or basename` (so an empty
string also falls back to the directory name); a missing or empty
`plugin.main` yields `None`; `enabled` defaults to `True`. -/
def load_plugin_metadata (dirName : String) (w : PluginWorld) : Option PluginMeta :=
  match w.manifest with
  | none => none
  | some data =>
    let name := match data.name with
      | some s => if s = "" then dirName else s
      | none => dirName
    match data.main with
    | none => none
    | some mainFile =>
      if mainFile = "" then none
      else some { name := name, main := mainFile,
                  enabled := data.enabled.getD true,
                  dir := "plugins/" ++ dirName }

/-- `import_plugin_module(plugin_meta)` from `main.py`, threading `sys.path`
explicitly.  Returns the module name registered in `sys.modules`
(`"plugin_" ++ name`) on success, `none` on any failure, together with the
`sys.path` visible after the call.  The source inserts the plugin directory
at the front of `sys.path`, executes the module, and in a `finally` block
pops the front entry again if it is still the plugin directory; an exception
raised by the module body is caught by the surrounding handler after the
`finally` ran. -/
def import_plugin_module (m : PluginMeta) (w : PluginWorld) (sysPath : List String) :
    Option String × List String :=
  if ¬ w.files.contains m.main then (none, sysPath)
  else if ¬ w.specOk then (none, sysPath)
  else
    let pathDuring := m.dir :: sysPath
    let pathAfter :=
      if pathDuring.head? = some m.dir then pathDuring.tail else pathDuring
    match w.execOutcome with
    | .raises => (none, pathAfter)
    | .success => (some ("plugin_" ++ m.name), pathAfter)

/-- A registry value: the loaded module handle and its metadata,
mirroring `{'module': module, 'meta': meta}` in `main.py`. -/
structure RegEntry where
  module : String
  meta : PluginMeta
  deriving DecidableEq, Repr

/-- The `bot.plugins` registry: a name-keyed dict, as an association list. -/
def Registry := List (String × RegEntry)

instance : DecidableEq Registry := by
  unfold Registry
  infer_instance

/-- Dict assignment `registry[name] = entry`. -/
def registrySet (reg : Registry) (name : String) (e : RegEntry) : Registry :=
  (name, e) :: reg.filter (fun p => p.1 ≠ name)

/-- Dict removal `registry.pop(name, None)`. -/
def registryPop (reg : Registry) (name : String) : Registry :=
  reg.filter (fun p => p.1 ≠ name)

/-- Dict lookup `registry.get(name)`. -/
def registryGet (reg : Registry) (name : String) : Option RegEntry :=
  List.lookup name reg

/-- The distinct exit points of `load_plugin` in `main.py`, in source order:
already registered; plugin directory missing; metadata failed to load
(unreadable manifest or missing `plugin.main`); module import failed
(missing entry file, spec failure, or module body raising); success. -/
inductive LoadResult where
  | alreadyLoaded
  | dirNotFound
  | metadataFailed
  | moduleLoadError
  | ok
  deriving DecidableEq, Repr

/-- `load_plugin(bot, name)` from `main.py`, with the exit point made
observable.  The boolean the source returns is `· = LoadResult.ok`.
`initialize_plugin` catches every exception of the plugin's `setup` hook
and never mutates the registry, so it does not appear in the state. -/
def load_plugin_r (reg : Registry) (name : String) (w : PluginWorld) :
    LoadResult × Registry :=
  if (registryGet reg name).isSome then (.alreadyLoaded, reg)
  else if ¬ w.dirExists then (.dirNotFound, reg)
  else
    match load_plugin_metadata name w with
    | none => (.metadataFailed, reg)
    | some meta =>
      match (import_plugin_module meta w w.sysPath).1 with
      | none => (.moduleLoadError, reg)
      | some module =>
        (.ok, registrySet reg name { module := module, meta := meta })

/-- `load_plugin`'s boolean result together with the updated registry. -/
def load_plugin (reg : Registry) (name : String) (w : PluginWorld) :
    Bool × Registry :=
  let (r, reg') := load_plugin_r reg name w
  (r = LoadResult.ok, reg')

/-- `unload_plugin(bot, name)` from `main.py`, restricted to its effect on
the registry.  The `teardown` hook is invoked with every exception caught,
cog removal ignores failures, and `sys.modules` eviction does not touch the
registry, so the registry outcome is: absent name fails, present name is
popped. -/
def unload_plugin (reg : Registry) (name : String) : Bool × Registry :=
  match registryGet reg name with
  | none => (false, reg)
  | some _ => (true, registryPop reg name)

/-- `restart_plugin(bot, name)` from `main.py`: unload, then load, and
return the conjunction of the two step results. -/
def restart_plugin (reg : Registry) (name : String) (w : PluginWorld) :
    Bool × Registry :=
  let (unloaded, reg1) := unload_plugin reg name
  let (loaded, reg2) := load_plugin reg1 name w
  (unloaded && loaded, reg2)

/-! ## Remote installer (`plugins/plugin_manager/downloader.py`) -/

/-- The failure kinds raised as `DownloadError` in `downloader.py`:
bad spec format; a `download_zip` failure for a URL; a corrupt zip; a flat
or empty zip (no top-level directory segment); the aggregated failure when
every candidate URL failed, carrying the last underlying error; a missing
root `plugin.toml`; the target plugin directory already existing. -/
inductive DownloadError where
  | badFormat
  | downloadFailed (url : String)
  | badZip
  | emptyZip
  | fetchFailed (last : Option DownloadError)
  | notAPlugin
  | alreadyExists (repo : String)
  deriving Repr

/-- Split a character list at the first occurrence of `c`
(Python `s.split(c, 1)`); `none` when `c` does not occur (`c not in s`). -/
def splitFirst (c : Char) : List Char → Option (List Char × List Char)
  | [] => none
  | x :: xs =>
    if x = c then some ([], xs)
    else
      match splitFirst c xs with
      | none => none
      | some (l, r) => some (x :: l, r)

/-- `parse_spec(spec)` from `downloader.py`: split at the first `@` into
repo part and branch (branch `none` when no `@`), require a `/` in the repo
part, split the repo part at the first `/` into owner and repo. -/
def parse_spec (spec : String) : Except DownloadError (String × String × Option String) :=
  let (repoPart, branch) :=
    match splitFirst '@' spec.data with
    | some (l, r) => (l, some (String.mk r))
    | none => (spec.data, none)
  match splitFirst '/' repoPart with
  | none => .error .badFormat
  | some (owner, repo) => .ok (String.mk owner, String.mk repo, branch)

/-- `build_candidate_urls(owner, repo, branch)` from `downloader.py`.
Python's `if branch:` is false for both `None` and the empty string, in
which case the two default candidates `main` then `master` are built. -/
def build_candidate_urls (owner repo : String) (branch : Option String) : List String :=
  let base := "https://codeload.github.com/" ++ owner ++ "/" ++ repo ++ "/zip/refs/heads/"
  match branch with
  | some b =>
    if b ≠ "" then [base ++ b]
    else [base ++ "main", base ++ "master"]
  | none => [base ++ "main", base ++ "master"]

/-- A downloaded archive: either corrupt (opening raises `BadZipFile`) or a
valid zip with its list of member names (`zf.namelist()`). -/
inductive ZipFile where
  | corrupt
  | valid (entries : List String)

/-- Code-point lexicographic order on character lists: the order Python
uses when sorting the top-level name strings of a zip. -/
def lexLe : List Char → List Char → Bool
  | [], _ => true
  | _ :: _, [] => false
  | a :: as, b :: bs =>
    if a.toNat < b.toNat then true
    else if b.toNat < a.toNat then false
    else lexLe as bs

/-- Insert a string into a list sorted by `lexLe` (helper of `sortLe`). -/
def insertLe (x : String) : List String → List String
  | [] => [x]
  | y :: ys => if lexLe x.data y.data then x :: y :: ys else y :: insertLe x ys

/-- Python's `sorted` on a collection of strings (insertion sort by
code-point lexicographic order). -/
def sortLe : List String → List String
  | [] => []
  | x :: xs => insertLe x (sortLe xs)

/-- The top-level path segment of a zip member name (`n.split('/')[0]`):
the characters before the first `/` (the whole name when there is none). -/
def topSegment (n : String) : String :=
  String.mk (n.data.takeWhile (fun c => c != '/'))

/-- Python's `'/' in n` membership test. -/
def containsSlash (n : String) : Bool := n.data.contains '/'

/-- The distinct top-level directory segments of a zip's member list:
`{n.split('/')[0] for n in namelist if '/' in n}`. -/
def rootNames (entries : List String) : List String :=
  ((entries.filter containsSlash).map topSegment).dedup

/-- One filesystem effect of the installer, in program order: create the
temporary directory; write the downloaded archive; extract the archive into
a directory; move a directory onto another; remove a directory tree. -/
inductive FsOp where
  | mkdtemp (dir : String)
  | writeZip (path : String)
  | extractTo (dir : String)
  | moveDir (src dst : String)
  | rmtree (dir : String)
  deriving Repr

/-- `extract_zip(zip_path, target_dir)` from `downloader.py`, returning the
result together with the filesystem effects performed.  A corrupt zip fails
before extracting anything; a valid zip is fully extracted (`extractall`)
before the root check, which fails when no member name contains a `/`, and
otherwise picks `sorted(root_names)[0]`. -/
def extract_zip (zip : ZipFile) (targetDir : String) :
    Except DownloadError String × List FsOp :=
  match zip with
  | .corrupt => (.error .badZip, [])
  | .valid entries =>
    match sortLe (rootNames entries) with
    | [] => (.error .emptyZip, [.extractTo targetDir])
    | rootFolder :: _ => (.ok (targetDir ++ "/" ++ rootFolder), [.extractTo targetDir])

/-- What one candidate URL yields when fetched: a `download_zip` failure,
or a downloaded archive. -/
inductive FetchOutcome where
  | failure
  | archive (zip : ZipFile)

/-- The world an `install_repo_as_plugin` call observes: whether the target
plugin directory already exists, the name `tempfile.mkdtemp` returns, what
each URL yields, and whether the final `shutil.move` succeeds. -/
structure InstallWorld where
  targetExists : Bool
  tmpDir : String
  fetch : String → FetchOutcome
  moveSucceeds : Bool

/-- One iteration of the candidate loop body in `install_repo_as_plugin`:
`download_zip(url, zip_path)` then `extract_zip(zip_path, tmp_dir)`.  On
success the extracted-root path and the winning zip's member list are
returned; any exception is captured.  The effect trace records the zip
write (only when the download succeeded) and the extraction effects. -/
def attemptUrl (w : InstallWorld) (url : String) :
    Except DownloadError (String × List String) × List FsOp :=
  match w.fetch url with
  | .failure => (.error (.downloadFailed url), [])
  | .archive zip =>
    let writeOps := [FsOp.writeZip (w.tmpDir ++ "/repo.zip")]
    match zip with
    | .corrupt => (.error .badZip, writeOps ++ (extract_zip .corrupt w.tmpDir).2)
    | .valid entries =>
      match (extract_zip (.valid entries) w.tmpDir).1 with
      | .error e => (.error e, writeOps ++ (extract_zip (.valid entries) w.tmpDir).2)
      | .ok root => (.ok (root, entries), writeOps ++ (extract_zip (.valid entries) w.tmpDir).2)

/-- The `for url in candidates` loop of `install_repo_as_plugin`: attempt
each URL in order, break on the first success, and remember the last
captured error.  Returns the extracted root with the winning member list
(`none` when every candidate failed), the final `last_error`, and the
accumulated effect trace. -/
def tryCandidates (w : InstallWorld) (lastErr : Option DownloadError) :
    List String → Option (String × List String) × Option DownloadError × List FsOp
  | [] => (none, lastErr, [])
  | url :: rest =>
    match attemptUrl w url with
    | (.ok rootEntries, ops) => (some rootEntries, lastErr, ops)
    | (.error e, ops) =>
      let further := tryCandidates w (some e) rest
      (further.1, further.2.1, ops ++ further.2.2)

/-- The overall result of `install_repo_as_plugin`: the target directory
path, a `DownloadError`, or the exception `shutil.move` itself raised
(which is not a `DownloadError`). -/
inductive InstallResult where
  | ok (target : String)
  | err (e : DownloadError)
  | moveRaised
  deriving Repr

/-- Python's `spec.strip()`: remove leading and trailing whitespace. -/
def pyStrip (s : String) : String :=
  String.mk (((s.data.dropWhile Char.isWhitespace).reverse.dropWhile
    Char.isWhitespace).reverse)

/-- Whether the extracted root contains `plugin.toml` at its top level
(`os.path.isfile(os.path.join(extracted_root, 'plugin.toml'))` after
`extractall`): the winning zip has a member `<rootFolder>/plugin.toml`,
where the extracted root path is `tmpDir ++ "/" ++ rootFolder`. -/
def hasRootManifest (tmpDir root : String) (entries : List String) : Bool :=
  entries.contains
    (String.mk (root.data.drop (tmpDir.data.length + 1)) ++ "/plugin.toml")

/-- `install_repo_as_plugin(spec, plugins_dir)` from `downloader.py`,
returning the result and the full filesystem effect trace.  Parsing and the
existing-target check happen before any filesystem effect; afterwards the
temporary directory is created, the candidate loop runs, the root manifest
is checked, the validated root is moved into the plugins directory, and the
`finally` block removes the temporary directory on every one of those exit
paths. -/
def install_repo_as_plugin (spec : String) (plugins_dir : String) (w : InstallWorld) :
    InstallResult × List FsOp :=
  match parse_spec (pyStrip spec) with
  | .error e => (.err e, [])
  | .ok (owner, repo, branch) =>
    let target := plugins_dir ++ "/" ++ repo
    if w.targetExists then (.err (.alreadyExists repo), [])
    else
      let candidates := build_candidate_urls owner repo branch
      let attempt := tryCandidates w none candidates
      let opsBefore := FsOp.mkdtemp w.tmpDir :: attempt.2.2
      match attempt.1 with
      | none => (.err (.fetchFailed attempt.2.1), opsBefore ++ [.rmtree w.tmpDir])
      | some (root, entries) =>
        if ¬ hasRootManifest w.tmpDir root entries then
          (.err .notAPlugin, opsBefore ++ [.rmtree w.tmpDir])
        else if w.moveSucceeds then
          (.ok target, opsBefore ++ [.moveDir root target, .rmtree w.tmpDir])
        else
          (.moveRaised, opsBefore ++ [.rmtree w.tmpDir])

/-! ## Registry lemmas -/

theorem registryGet_registrySet_self (reg : Registry) (name : String) (e : RegEntry) :
    registryGet (registrySet reg name e) name = some e := by
  simp [registryGet, registrySet, List.lookup]

theorem registryGet_filter_ne (reg : Registry) (name : String) :
    List.lookup name (reg.filter (fun p => p.1 ≠ name)) = none := by
  induction reg with
  | nil => rfl
  | cons hd tl ih =>
    obtain ⟨k, v⟩ := hd
    by_cases h : k = name
    · rw [List.filter_cons, if_neg (by simp [h])]
      exact ih
    · rw [List.filter_cons, if_pos (by simp [h])]
      have h' : (name == k) = false := by
        simp [beq_iff_eq]
        exact Ne.symm h
      simpa [List.lookup, h'] using ih

theorem registryGet_registryPop_self (reg : Registry) (name : String) :
    registryGet (registryPop reg name) name = none := by
  simpa [registryGet, registryPop] using registryGet_filter_ne reg name

theorem load_plugin_r_cases (reg : Registry) (name : String) (w : PluginWorld) :
    ((load_plugin_r reg name w).1 = LoadResult.ok ∧
      (registryGet (load_plugin_r reg name w).2 name).isSome = true) ∨
    ((load_plugin_r reg name w).1 ≠ LoadResult.ok ∧
      (load_plugin_r reg name w).2 = reg) := by
  unfold load_plugin_r
  split
  · exact Or.inr ⟨(fun h => nomatch h), rfl⟩
  · split
    · exact Or.inr ⟨(fun h => nomatch h), rfl⟩
    · split
      · exact Or.inr ⟨(fun h => nomatch h), rfl⟩
      · split
        · exact Or.inr ⟨(fun h => nomatch h), rfl⟩
        · exact Or.inl ⟨rfl, by simp [registryGet_registrySet_self]⟩

theorem load_plugin_r_fail_registry (reg : Registry) (name : String) (w : PluginWorld)
    (h : (load_plugin_r reg name w).1 ≠ LoadResult.ok) :
    (load_plugin_r reg name w).2 = reg := by
  rcases load_plugin_r_cases reg name w with ⟨h1, _⟩ | ⟨_, h2⟩
  · exact absurd h1 h
  · exact h2

theorem load_plugin_r_ok_registered (reg : Registry) (name : String) (w : PluginWorld)
    (h : (load_plugin_r reg name w).1 = LoadResult.ok) :
    (registryGet (load_plugin_r reg name w).2 name).isSome = true := by
  rcases load_plugin_r_cases reg name w with ⟨_, h2⟩ | ⟨h1, _⟩
  · exact h2
  · exact absurd h h1

/-! ## Claims about the lifecycle manager -/

/-- The concrete world used for claim C1: a valid plugin directory whose
manifest declares `enabled = false`, with an importable entry module. -/
def c1World : PluginWorld :=
  { dirExists := true,
    manifest := some { name := some "p", main := some "main.py", enabled := some false },
    files := ["main.py"], specOk := true, execOutcome := .success, sysPath := [] }

/-- C1, counterexample: the claim says an explicit Load of a disabled plugin
fails with `PluginDisabled` and does not register it.  On the code,
`load_plugin` never consults `enabled`: at this concrete input (empty
registry, valid directory and manifest with `enabled = false`) the load
returns the success exit and the plugin is registered — refuting both the
failure and the non-registration the claim asserts. -/
theorem c1_load_disabled_counterexample :
    (load_plugin_r [] "p" c1World).1 = LoadResult.ok ∧
    registryGet (load_plugin_r [] "p" c1World).2 "p" =
      some { module := "plugin_p",
             meta := { name := "p", main := "main.py", enabled := false,
                       dir := "plugins/p" } } := by
  constructor <;> rfl

/-- C1 (amended): for every plugin whose manifest declares `enabled = false`,
an explicit Load of that plugin's name (the plugin not being registered, its
directory and manifest otherwise valid, and the module importable) does not
fail with `PluginDisabled`: it succeeds and registers the plugin, the
enabled flag not being consulted by `load_plugin`. -/
theorem c1_load_ignores_disabled (reg : Registry) (name : String) (w : PluginWorld)
    (md : ManifestData) (m : String)
    (habs : registryGet reg name = none)
    (hdir : w.dirExists = true)
    (hman : w.manifest = some md)
    (hmain : md.main = some m) (hm : m ≠ "")
    (hfile : w.files.contains m = true)
    (hspec : w.specOk = true)
    (hexec : w.execOutcome = ExecOutcome.success)
    (hdis : md.enabled = some false) :
    (load_plugin_r reg name w).1 = LoadResult.ok ∧
    ∃ e, registryGet (load_plugin_r reg name w).2 name = some e ∧
      e.meta.enabled = false := by
  obtain ⟨mdName, mdMain, mdEnabled⟩ := md
  simp only at hmain hdis
  subst hmain hdis
  have hmeta : ∃ nm, load_plugin_metadata name w =
      some { name := nm, main := m, enabled := false, dir := "plugins/" ++ name } := by
    cases hn : mdName with
    | none => exact ⟨name, by simp [load_plugin_metadata, hman, hn, hm]⟩
    | some s =>
      by_cases hs : s = ""
      · exact ⟨name, by simp [load_plugin_metadata, hman, hn, hs, hm]⟩
      · exact ⟨s, by simp [load_plugin_metadata, hman, hn, hs, hm]⟩
  obtain ⟨nm, hmeta⟩ := hmeta
  have hmem : m ∈ w.files := by simpa using hfile
  have himp : (import_plugin_module
      { name := nm, main := m, enabled := false, dir := "plugins/" ++ name }
      w w.sysPath).1 = some ("plugin_" ++ nm) := by
    simp [import_plugin_module, hmem, hspec, hexec]
  have hrun : load_plugin_r reg name w =
      (LoadResult.ok, registrySet reg name
        { module := "plugin_" ++ nm,
          meta := { name := nm, main := m, enabled := false,
                    dir := "plugins/" ++ name } }) := by
    simp [load_plugin_r, habs, hdir, hmeta, himp]
  rw [hrun]
  exact ⟨rfl, ⟨_, registryGet_registrySet_self .., rfl⟩⟩

/-- C1, witness for the amended theorem at the concrete disabled plugin. -/
theorem c1_load_ignores_disabled_witness :
    (load_plugin_r [] "p" c1World).1 = LoadResult.ok ∧
    ∃ e, registryGet (load_plugin_r [] "p" c1World).2 "p" = some e ∧
      e.meta.enabled = false :=
  c1_load_ignores_disabled [] "p" c1World
    { name := some "p", main := some "main.py", enabled := some false } "main.py"
    rfl rfl rfl rfl (by decide) rfl rfl rfl rfl

/-- C2: `restart_plugin` is unload-then-load, succeeding if and only if both
the unload step and the subsequent load step succeed; and whenever the
unload step succeeds but the load step fails, restart reports failure and
the name is absent from the registry afterwards. -/
theorem c2_restart_both_steps (reg : Registry) (name : String) (w : PluginWorld) :
    ((restart_plugin reg name w).1 = true ↔
      (unload_plugin reg name).1 = true ∧
      (load_plugin (unload_plugin reg name).2 name w).1 = true) ∧
    ((unload_plugin reg name).1 = true →
      (load_plugin (unload_plugin reg name).2 name w).1 = false →
      (restart_plugin reg name w).1 = false ∧
      registryGet (restart_plugin reg name w).2 name = none) := by
  constructor
  · simp [restart_plugin, load_plugin, Bool.and_eq_true]
  · intro hu hl
    have hpop : (unload_plugin reg name).2 = registryPop reg name := by
      unfold unload_plugin at *
      split at hu
      · simp at hu
      · rfl
    have hfail : (load_plugin_r (unload_plugin reg name).2 name w).1 ≠ LoadResult.ok := by
      intro hok
      simp [load_plugin, hok] at hl
    constructor
    · simp [restart_plugin, load_plugin]
      intro
      simpa [load_plugin] using hl
    · have hreg2 : (restart_plugin reg name w).2 =
          (unload_plugin reg name).2 := by
        simp [restart_plugin, load_plugin]
        exact load_plugin_r_fail_registry _ name w hfail
      rw [hreg2, hpop]
      exact registryGet_registryPop_self reg name

/-- An example registry entry used in witnesses. -/
def someEntry : RegEntry :=
  { module := "plugin_q",
    meta := { name := "q", main := "main.py", enabled := true, dir := "plugins/q" } }

/-- A world in which loading fails because the entry file is missing. -/
def missingEntryWorld : PluginWorld :=
  { dirExists := true,
    manifest := some { name := some "q", main := some "main.py", enabled := none },
    files := [], specOk := true, execOutcome := .success, sysPath := [] }

/-- C2, witness: restarting a registered plugin whose entry file has gone
missing fails and leaves the name unregistered. -/
theorem c2_restart_both_steps_witness :
    (restart_plugin [("q", someEntry)] "q" missingEntryWorld).1 = false ∧
    registryGet (restart_plugin [("q", someEntry)] "q" missingEntryWorld).2 "q" = none :=
  (c2_restart_both_steps [("q", someEntry)] "q" missingEntryWorld).2 (by decide) (by decide)

/-- C3: for a name not currently registered but loadable, `restart_plugin`
returns failure (the unload step failed) yet still performs the load step,
so the plugin ends up registered. -/
theorem c3_restart_absent_still_loads (reg : Registry) (name : String) (w : PluginWorld)
    (habs : registryGet reg name = none)
    (hload : (load_plugin_r reg name w).1 = LoadResult.ok) :
    (restart_plugin reg name w).1 = false ∧
    (registryGet (restart_plugin reg name w).2 name).isSome = true := by
  have hun : unload_plugin reg name = (false, reg) := by
    unfold unload_plugin
    rw [habs]
  constructor
  · simp [restart_plugin, hun]
  · have : (restart_plugin reg name w).2 = (load_plugin_r reg name w).2 := by
      simp [restart_plugin, hun, load_plugin]
    rw [this]
    exact load_plugin_r_ok_registered reg name w hload

/-- A fully valid, enabled, importable plugin world used in witnesses. -/
def validWorld : PluginWorld :=
  { dirExists := true,
    manifest := some { name := some "q", main := some "main.py", enabled := some true },
    files := ["main.py"], specOk := true, execOutcome := .success, sysPath := [] }

/-- C3, witness: restarting an absent but loadable plugin fails yet
registers it. -/
theorem c3_restart_absent_still_loads_witness :
    (restart_plugin [] "q" validWorld).1 = false ∧
    (registryGet (restart_plugin [] "q" validWorld).2 "q").isSome = true :=
  c3_restart_absent_still_loads [] "q" validWorld rfl rfl

/-- C4: no load attempt changes the module search path it leaves behind:
whatever the outcome (entry file missing, spec creation failing, the module
body raising, or success), `import_plugin_module` returns `sys.path`
exactly as it found it — the temporarily inserted plugin directory is
removed by the `finally` block. -/
theorem c4_import_restores_search_path (m : PluginMeta) (w : PluginWorld)
    (sysPath : List String) :
    (import_plugin_module m w sysPath).2 = sysPath := by
  unfold import_plugin_module
  by_cases hf : m.main ∈ w.files
  · by_cases hs : w.specOk
    · cases he : w.execOutcome <;> simp [hf, hs, he]
    · simp [hf, hs]
  · simp [hf]

theorem load_plugin_metadata_main (name : String) (w : PluginWorld)
    (md : ManifestData) (m : String)
    (hman : w.manifest = some md) (hmain : md.main = some m) (hm : m ≠ "") :
    ∃ meta, load_plugin_metadata name w = some meta ∧ meta.main = m := by
  obtain ⟨mdName, mdMain, mdEnabled⟩ := md
  simp only at hmain
  subst hmain
  cases hn : mdName with
  | none =>
    exact ⟨{ name := name, main := m, enabled := mdEnabled.getD true,
             dir := "plugins/" ++ name },
           by simp [load_plugin_metadata, hman, hn, hm], rfl⟩
  | some s =>
    by_cases hs : s = ""
    · exact ⟨{ name := name, main := m, enabled := mdEnabled.getD true,
               dir := "plugins/" ++ name },
             by simp [load_plugin_metadata, hman, hn, hs, hm], rfl⟩
    · exact ⟨{ name := s, main := m, enabled := mdEnabled.getD true,
               dir := "plugins/" ++ name },
             by simp [load_plugin_metadata, hman, hn, hs, hm], rfl⟩

/-- C5: for every plugin whose manifest names an entry file that does not
exist under the plugin directory (and which is not already registered, with
an existing directory and a readable manifest), Load fails at the
module-import exit (`ModuleLoadError`) and the registry is exactly the same
after the call as before it. -/
theorem c5_load_missing_entry_file (reg : Registry) (name : String) (w : PluginWorld)
    (md : ManifestData) (m : String)
    (habs : registryGet reg name = none)
    (hdir : w.dirExists = true)
    (hman : w.manifest = some md)
    (hmain : md.main = some m) (hm : m ≠ "")
    (hmiss : ¬ m ∈ w.files) :
    load_plugin_r reg name w = (LoadResult.moduleLoadError, reg) := by
  obtain ⟨meta, hmeta, hmetam⟩ := load_plugin_metadata_main name w md m hman hmain hm
  have himp : (import_plugin_module meta w w.sysPath).1 = none := by
    simp [import_plugin_module, hmetam, hmiss]
  simp [load_plugin_r, habs, hdir, hmeta, himp]

/-- C5, witness: at the concrete missing-entry world, load fails with the
module-import error and returns the registry it was given. -/
theorem c5_load_missing_entry_file_witness :
    load_plugin_r [] "q" missingEntryWorld = (LoadResult.moduleLoadError, []) :=
  c5_load_missing_entry_file [] "q" missingEntryWorld
    { name := some "q", main := some "main.py", enabled := none } "main.py"
    rfl rfl rfl rfl (by decide) (by decide)

/-- C6: for every name not currently registered whose directory and
manifest are valid and whose module imports successfully, Load succeeds and
an immediate registry lookup returns an entry whose metadata is exactly the
metadata derived from the manifest; a second Load of the same name without
an intervening Unload fails with `AlreadyLoaded` and leaves the registry
unchanged. -/
theorem c6_load_then_lookup_then_alreadyLoaded (reg : Registry) (name : String)
    (w : PluginWorld) (md : ManifestData) (m : String)
    (habs : registryGet reg name = none)
    (hdir : w.dirExists = true)
    (hman : w.manifest = some md)
    (hmain : md.main = some m) (hm : m ≠ "")
    (hfile : m ∈ w.files)
    (hspec : w.specOk = true)
    (hexec : w.execOutcome = ExecOutcome.success) :
    ∃ meta, load_plugin_metadata name w = some meta ∧
      (load_plugin_r reg name w).1 = LoadResult.ok ∧
      registryGet (load_plugin_r reg name w).2 name =
        some { module := "plugin_" ++ meta.name, meta := meta } ∧
      load_plugin_r (load_plugin_r reg name w).2 name w =
        (LoadResult.alreadyLoaded, (load_plugin_r reg name w).2) := by
  obtain ⟨meta, hmeta, hmetam⟩ := load_plugin_metadata_main name w md m hman hmain hm
  have himp : (import_plugin_module meta w w.sysPath).1 =
      some ("plugin_" ++ meta.name) := by
    simp [import_plugin_module, hmetam, hfile, hspec, hexec]
  have hrun : load_plugin_r reg name w =
      (LoadResult.ok, registrySet reg name
        { module := "plugin_" ++ meta.name, meta := meta }) := by
    simp [load_plugin_r, habs, hdir, hmeta, himp]
  refine ⟨meta, hmeta, ?_, ?_, ?_⟩
  · rw [hrun]
  · rw [hrun]
    exact registryGet_registrySet_self ..
  · rw [hrun]
    simp [load_plugin_r, registryGet_registrySet_self]

/-- C6, witness: loading an absent valid plugin, looking it up, and loading
again at the concrete valid world. -/
theorem c6_load_then_lookup_then_alreadyLoaded_witness :
    ∃ meta, load_plugin_metadata "q" validWorld = some meta ∧
      (load_plugin_r [] "q" validWorld).1 = LoadResult.ok ∧
      registryGet (load_plugin_r [] "q" validWorld).2 "q" =
        some { module := "plugin_" ++ meta.name, meta := meta } ∧
      load_plugin_r (load_plugin_r [] "q" validWorld).2 "q" validWorld =
        (LoadResult.alreadyLoaded, (load_plugin_r [] "q" validWorld).2) :=
  c6_load_then_lookup_then_alreadyLoaded [] "q" validWorld
    { name := some "q", main := some "main.py", enabled := some true } "main.py"
    rfl rfl rfl rfl (by decide) (by decide) rfl rfl

/-! ## Order lemmas for the zip root choice -/

theorem lexLe_refl : ∀ (a : List Char), lexLe a a = true
  | [] => rfl
  | x :: xs => by simp [lexLe, lexLe_refl xs]

theorem lexLe_total : ∀ (a b : List Char), lexLe a b = true ∨ lexLe b a = true
  | [], _ => Or.inl rfl
  | _ :: _, [] => Or.inr rfl
  | x :: xs, y :: ys => by
    by_cases hxy : x.toNat < y.toNat
    · exact Or.inl (by simp [lexLe, hxy])
    · by_cases hyx : y.toNat < x.toNat
      · exact Or.inr (by simp [lexLe, hyx])
      · rcases lexLe_total xs ys with h | h
        · exact Or.inl (by simp [lexLe, hxy, hyx, h])
        · exact Or.inr (by simp [lexLe, hyx, hxy, h])

theorem lexLe_trans : ∀ (a b c : List Char),
    lexLe a b = true → lexLe b c = true → lexLe a c = true
  | [], _, _, _, _ => rfl
  | _ :: _, [], _, hab, _ => by simp [lexLe] at hab
  | _ :: _, _ :: _, [], _, hbc => by simp [lexLe] at hbc
  | x :: xs, y :: ys, z :: zs, hab, hbc => by
    by_cases hxy : x.toNat < y.toNat <;> by_cases hyz : y.toNat < z.toNat
    · simp [lexLe, Nat.lt_trans hxy hyz]
    · by_cases hzy : z.toNat < y.toNat
      · simp [lexLe, hyz, hzy] at hbc
      · have heq : y.toNat = z.toNat :=
          Nat.le_antisymm (Nat.not_lt.mp hzy) (Nat.not_lt.mp hyz)
        have hxz : x.toNat < z.toNat := heq ▸ hxy
        simp [lexLe, hxz]
    · by_cases hyx : y.toNat < x.toNat
      · simp [lexLe, hxy, hyx] at hab
      · have heq : x.toNat = y.toNat :=
          Nat.le_antisymm (Nat.not_lt.mp hyx) (Nat.not_lt.mp hxy)
        have hxz : x.toNat < z.toNat := heq ▸ hyz
        simp [lexLe, hxz]
    · by_cases hyx : y.toNat < x.toNat
      · simp [lexLe, hxy, hyx] at hab
      · by_cases hzy : z.toNat < y.toNat
        · simp [lexLe, hyz, hzy] at hbc
        · have hab' : lexLe xs ys = true := by simpa [lexLe, hxy, hyx] using hab
          have hbc' : lexLe ys zs = true := by simpa [lexLe, hyz, hzy] using hbc
          have heq1 : x.toNat = y.toNat :=
            Nat.le_antisymm (Nat.not_lt.mp hyx) (Nat.not_lt.mp hxy)
          have heq2 : y.toNat = z.toNat :=
            Nat.le_antisymm (Nat.not_lt.mp hzy) (Nat.not_lt.mp hyz)
          have hxz : ¬ x.toNat < z.toNat := by omega
          have hzx : ¬ z.toNat < x.toNat := by omega
          simp [lexLe, hxz, hzx, lexLe_trans xs ys zs hab' hbc']

theorem insertLe_ne_nil (x : String) (l : List String) : insertLe x l ≠ [] := by
  cases l with
  | nil => simp [insertLe]
  | cons y ys =>
    unfold insertLe
    split <;> simp

theorem mem_insertLe {y x : String} : ∀ {l : List String},
    y ∈ insertLe x l → y = x ∨ y ∈ l := by
  intro l
  induction l with
  | nil =>
    intro h
    rw [insertLe] at h
    exact Or.inl (List.mem_singleton.mp h)
  | cons z zs ih =>
    unfold insertLe
    split
    · intro h
      rcases List.mem_cons.mp h with h | h
      · exact Or.inl h
      · exact Or.inr h
    · intro h
      rcases List.mem_cons.mp h with h | h
      · exact Or.inr (List.mem_cons.mpr (Or.inl h))
      · rcases ih h with h | h
        · exact Or.inl h
        · exact Or.inr (List.mem_cons.mpr (Or.inr h))

theorem sortLe_eq_nil {l : List String} (h : sortLe l = []) : l = [] := by
  cases l with
  | nil => rfl
  | cons x xs =>
    rw [sortLe] at h
    exact absurd h (insertLe_ne_nil x (sortLe xs))

theorem sortLe_head_min : ∀ (l : List String) (r : String) (rest : List String),
    sortLe l = r :: rest → r ∈ l ∧ ∀ x ∈ l, lexLe r.data x.data = true := by
  intro l
  induction l with
  | nil => intro r rest h; exact absurd h (by simp [sortLe])
  | cons x xs ih =>
    intro r rest h
    rw [sortLe] at h
    cases hs : sortLe xs with
    | nil =>
      have hxs : xs = [] := sortLe_eq_nil hs
      rw [hs] at h
      simp only [insertLe] at h
      obtain ⟨hr, _⟩ := List.cons.inj h
      subst hr hxs
      exact ⟨List.mem_singleton.mpr rfl, by simpa using lexLe_refl x.data⟩
    | cons r' rest' =>
      obtain ⟨hr'mem, hr'min⟩ := ih r' rest' hs
      rw [hs] at h
      unfold insertLe at h
      by_cases hle : lexLe x.data r'.data = true
      · rw [if_pos hle] at h
        obtain ⟨hr, _⟩ := List.cons.inj h
        subst hr
        refine ⟨List.mem_cons_self .., fun y hy => ?_⟩
        rcases List.mem_cons.mp hy with hy | hy
        · subst hy; exact lexLe_refl _
        · exact lexLe_trans _ _ _ hle (hr'min y hy)
      · rw [if_neg (by simpa using hle)] at h
        obtain ⟨hr, -⟩ := List.cons.inj h
        refine ⟨hr ▸ List.mem_cons_of_mem _ hr'mem, fun y hy => ?_⟩
        rcases List.mem_cons.mp hy with hy | hy
        · rw [← hr, hy]
          rcases lexLe_total r'.data x.data with h' | h'
          · exact h'
          · exact absurd h' hle
        · rw [← hr]
          exact hr'min y hy

/-! ## Claims about the archive installer -/

/-- C10: for every archive whose member names have more than one distinct
top-level directory segment, extraction does not fail: it returns the join
of the target directory with the code-point-lexicographically smallest
top-level directory name (`sorted(root_names)[0]`). -/
theorem c10_extract_picks_smallest_root (entries : List String) (tmp : String)
    (h : 1 < (rootNames entries).length) :
    ∃ r rest, sortLe (rootNames entries) = r :: rest ∧
      (extract_zip (ZipFile.valid entries) tmp).1 = .ok (tmp ++ "/" ++ r) ∧
      r ∈ rootNames entries ∧
      ∀ x ∈ rootNames entries, lexLe r.data x.data = true := by
  cases hs : sortLe (rootNames entries) with
  | nil =>
    rw [sortLe_eq_nil hs] at h
    simp at h
  | cons r rest =>
    obtain ⟨hmem, hmin⟩ := sortLe_head_min _ r rest hs
    exact ⟨r, rest, rfl, by simp [extract_zip, hs], hmem, hmin⟩

/-- C10, witness: an archive with three distinct top-level directories
extracts successfully and chooses the smallest one. -/
theorem c10_extract_picks_smallest_root_witness :
    1 < (rootNames ["beta/x.py", "alpha/plugin.toml", "gamma/y.py"]).length ∧
    ∃ r rest,
      sortLe (rootNames ["beta/x.py", "alpha/plugin.toml", "gamma/y.py"]) = r :: rest ∧
      (extract_zip (ZipFile.valid ["beta/x.py", "alpha/plugin.toml", "gamma/y.py"]) "T").1 =
        .ok ("T" ++ "/" ++ r) ∧
      r ∈ rootNames ["beta/x.py", "alpha/plugin.toml", "gamma/y.py"] ∧
      ∀ x ∈ rootNames ["beta/x.py", "alpha/plugin.toml", "gamma/y.py"],
        lexLe r.data x.data = true :=
  ⟨by decide,
   c10_extract_picks_smallest_root ["beta/x.py", "alpha/plugin.toml", "gamma/y.py"] "T"
     (by decide)⟩

/-! ## Trace lemmas for the installer -/

theorem extract_zip_valid_ops (entries : List String) (tmp : String) :
    (extract_zip (ZipFile.valid entries) tmp).2 = [FsOp.extractTo tmp] := by
  simp only [extract_zip]
  split <;> rfl

theorem extract_zip_ok_shape (zip : ZipFile) (tmp : String) (root : String)
    (h : (extract_zip zip tmp).1 = .ok root) :
    ∃ f, root = tmp ++ "/" ++ f := by
  unfold extract_zip at h
  split at h
  · simp at h
  · split at h
    · simp at h
    · rename_i rootFolder tail heq
      refine ⟨rootFolder, ?_⟩
      simpa using h.symm

theorem attemptUrl_ops (w : InstallWorld) (url : String) :
    ∀ op ∈ (attemptUrl w url).2,
      op = FsOp.writeZip (w.tmpDir ++ "/repo.zip") ∨ op = FsOp.extractTo w.tmpDir := by
  intro op hop
  unfold attemptUrl at hop
  split at hop
  · simp at hop
  · split at hop
    · simp only [extract_zip] at hop
      simp at hop
      exact Or.inl hop
    · split at hop <;>
      · simp only [extract_zip_valid_ops] at hop
        simp at hop
        rcases hop with h | h
        · exact Or.inl h
        · exact Or.inr h

theorem attemptUrl_ok_shape (w : InstallWorld) (url : String)
    (root : String) (entries : List String) (ops : List FsOp)
    (h : attemptUrl w url = (.ok (root, entries), ops)) :
    ∃ f, root = w.tmpDir ++ "/" ++ f := by
  unfold attemptUrl at h
  split at h
  · simp at h
  · split at h
    · simp at h
    · split at h
      · simp at h
      · rename_i r heq
        have h1 := congrArg Prod.fst h
        simp only at h1
        obtain ⟨hr, -⟩ := Prod.mk.inj (Except.ok.inj h1)
        exact extract_zip_ok_shape _ _ _ (hr ▸ heq)

theorem tryCandidates_ops (w : InstallWorld) :
    ∀ (urls : List String) (le : Option DownloadError),
      ∀ op ∈ (tryCandidates w le urls).2.2,
        op = FsOp.writeZip (w.tmpDir ++ "/repo.zip") ∨ op = FsOp.extractTo w.tmpDir := by
  intro urls
  induction urls with
  | nil => intro le op hop; simp [tryCandidates] at hop
  | cons url rest ih =>
    intro le op hop
    unfold tryCandidates at hop
    split at hop
    · rename_i rootEntries ops heq
      have h2 := congrArg Prod.snd heq
      apply attemptUrl_ops w url op
      rw [heq]
      simpa using hop
    · rename_i e ops heq
      simp only [List.mem_append] at hop
      rcases by simpa using hop with h | h
      · apply attemptUrl_ops w url op
        rw [heq]
        simpa using h
      · exact ih (some e) op h

theorem tryCandidates_root_shape (w : InstallWorld) :
    ∀ (urls : List String) (le : Option DownloadError) (root : String)
      (entries : List String),
      (tryCandidates w le urls).1 = some (root, entries) →
      ∃ f, root = w.tmpDir ++ "/" ++ f := by
  intro urls
  induction urls with
  | nil => intro le root entries h; simp [tryCandidates] at h
  | cons url rest ih =>
    intro le root entries h
    unfold tryCandidates at h
    split at h
    · rename_i rootEntries ops heq
      simp only at h
      have : rootEntries = (root, entries) := by simpa using h
      exact attemptUrl_ok_shape w url root entries ops (this ▸ heq)
    · rename_i e ops heq
      exact ih (some e) root entries (by simpa using h)

/-- The archive URL `downloader.py` builds for a given branch name. -/
def headsUrl (owner repo b : String) : String :=
  "https://codeload.github.com/" ++ owner ++ "/" ++ repo ++ "/zip/refs/heads/" ++ b

/-- C7: with a branch specified the candidate list is exactly that one URL;
with no branch it is exactly the `main` URL then the legacy `master` URL;
candidates are attempted in that order — the first that downloads and
extracts successfully supplies the extracted root (in the singleton case
its success is used, and in the pair case a later candidate never
overrides an earlier success) — and when every candidate fails the install
surfaces one aggregated failure carrying the last underlying error, both
for a named-branch spec (the single candidate's error) and for a
branchless spec (the legacy candidate's error). -/
theorem c7_candidates_order_and_aggregate
    (owner repo b : String) (hb : b ≠ "") (w : InstallWorld)
    (spec bspec pd : String)
    (hparse : parse_spec (pyStrip spec) = Except.ok (owner, repo, (none : Option String)))
    (hbparse : parse_spec (pyStrip bspec) = Except.ok (owner, repo, some b))
    (hex : w.targetExists = false) :
    build_candidate_urls owner repo (some b) = [headsUrl owner repo b] ∧
    build_candidate_urls owner repo none =
      [headsUrl owner repo "main", headsUrl owner repo "master"] ∧
    (∀ re ops, attemptUrl w (headsUrl owner repo b) = (.ok re, ops) →
      (tryCandidates w none (build_candidate_urls owner repo (some b))).1 = some re) ∧
    (∀ re ops, attemptUrl w (headsUrl owner repo "main") = (.ok re, ops) →
      (tryCandidates w none (build_candidate_urls owner repo none)).1 = some re) ∧
    (∀ e1 ops1 re ops2,
      attemptUrl w (headsUrl owner repo "main") = (.error e1, ops1) →
      attemptUrl w (headsUrl owner repo "master") = (.ok re, ops2) →
      (tryCandidates w none (build_candidate_urls owner repo none)).1 = some re) ∧
    (∀ e ops, attemptUrl w (headsUrl owner repo b) = (.error e, ops) →
      (install_repo_as_plugin bspec pd w).1 = .err (.fetchFailed (some e))) ∧
    (∀ e1 ops1 e2 ops2,
      attemptUrl w (headsUrl owner repo "main") = (.error e1, ops1) →
      attemptUrl w (headsUrl owner repo "master") = (.error e2, ops2) →
      (install_repo_as_plugin spec pd w).1 = .err (.fetchFailed (some e2))) := by
  refine ⟨by simp [build_candidate_urls, headsUrl, hb], rfl, ?_, ?_, ?_, ?_, ?_⟩
  · intro re ops h1
    simp only [headsUrl] at h1
    simp [tryCandidates, build_candidate_urls, hb, h1]
  · intro re ops h1
    simp only [build_candidate_urls, headsUrl] at *
    simp [tryCandidates, h1]
  · intro e1 ops1 re ops2 h1 h2
    simp only [build_candidate_urls, headsUrl] at *
    simp [tryCandidates, h1, h2]
  · intro e ops h1
    unfold install_repo_as_plugin
    rw [hbparse]
    simp only [headsUrl] at h1
    simp [hex, tryCandidates, build_candidate_urls, hb, h1]
  · intro e1 ops1 e2 ops2 h1 h2
    unfold install_repo_as_plugin
    rw [hparse]
    simp only [headsUrl] at h1 h2
    simp [hex, tryCandidates, build_candidate_urls, h1, h2]

/-- The install world used in witnesses where every URL download fails. -/
def allFailWorld : InstallWorld :=
  { targetExists := false, tmpDir := "tmp",
    fetch := fun _ => FetchOutcome.failure, moveSucceeds := true }

/-- C7, witness: with every candidate failing, a branchless install fails
with the aggregated error carrying the second (legacy) candidate error, and
a named-branch install fails with the aggregated error carrying its single
candidate's error. -/
theorem c7_candidates_order_and_aggregate_witness :
    (install_repo_as_plugin "acme/widgets" "plugins" allFailWorld).1 =
      .err (.fetchFailed (some (.downloadFailed (headsUrl "acme" "widgets" "master")))) ∧
    (install_repo_as_plugin "acme/widgets@dev" "plugins" allFailWorld).1 =
      .err (.fetchFailed (some (.downloadFailed (headsUrl "acme" "widgets" "dev")))) :=
  ⟨(c7_candidates_order_and_aggregate "acme" "widgets" "dev" (by decide) allFailWorld
      "acme/widgets" "acme/widgets@dev" "plugins" rfl rfl rfl).2.2.2.2.2.2
    (DownloadError.downloadFailed (headsUrl "acme" "widgets" "main")) []
    (DownloadError.downloadFailed (headsUrl "acme" "widgets" "master")) [] rfl rfl,
   (c7_candidates_order_and_aggregate "acme" "widgets" "dev" (by decide) allFailWorld
      "acme/widgets" "acme/widgets@dev" "plugins" rfl rfl rfl).2.2.2.2.2.1
    (DownloadError.downloadFailed (headsUrl "acme" "widgets" "dev")) [] rfl⟩

/-- C8: when the target plugin directory `plugins_dir/repo` already exists,
the install fails with the already-exists error and performs no filesystem
operation at all (empty effect trace), so the pre-existing directory is
untouched. -/
theorem c8_install_target_exists (spec pd : String) (w : InstallWorld)
    (owner repo : String) (branch : Option String)
    (hparse : parse_spec (pyStrip spec) = Except.ok (owner, repo, branch))
    (hex : w.targetExists = true) :
    install_repo_as_plugin spec pd w = (.err (.alreadyExists repo), []) := by
  unfold install_repo_as_plugin
  rw [hparse]
  simp [hex]

/-- The install world used in witnesses where the target already exists. -/
def targetExistsWorld : InstallWorld :=
  { targetExists := true, tmpDir := "tmp",
    fetch := fun _ => FetchOutcome.failure, moveSucceeds := true }

/-- C8, witness: installing `acme/widgets` over an existing
`plugins/widgets` fails with the already-exists error and an empty trace. -/
theorem c8_install_target_exists_witness :
    install_repo_as_plugin "acme/widgets" "plugins" targetExistsWorld =
      (.err (.alreadyExists "widgets"), []) :=
  c8_install_target_exists "acme/widgets" "plugins" targetExistsWorld
    "acme" "widgets" none rfl rfl

/-- C9: on every exit path past the existing-target check — success, all
candidates failing, missing root manifest, or the final move raising — the
temporary directory is removed last (the trace ends with its removal), and
every effect in the trace is either the creation/removal of the temporary
directory, a write or extraction inside it, or the single move of an
extracted root (a path inside the temporary directory) onto the final
plugin directory; so the only state surviving a successful install is the
final plugin directory. -/
theorem fsGetLast_append_pair (l : List FsOp) (a b : FsOp) :
    (l ++ [a, b]).getLast? = some b := by
  rw [show l ++ [a, b] = (l ++ [a]) ++ [b] by simp]
  exact List.getLast?_concat _

theorem c9_install_tmp_cleanup (spec pd : String) (w : InstallWorld)
    (owner repo : String) (branch : Option String)
    (hparse : parse_spec (pyStrip spec) = Except.ok (owner, repo, branch))
    (hex : w.targetExists = false) :
    (install_repo_as_plugin spec pd w).2.getLast? = some (FsOp.rmtree w.tmpDir) ∧
    ∀ op ∈ (install_repo_as_plugin spec pd w).2,
      op = FsOp.mkdtemp w.tmpDir ∨
      op = FsOp.rmtree w.tmpDir ∨
      op = FsOp.writeZip (w.tmpDir ++ "/repo.zip") ∨
      op = FsOp.extractTo w.tmpDir ∨
      ∃ f, op = FsOp.moveDir (w.tmpDir ++ "/" ++ f) (pd ++ "/" ++ repo) := by
  unfold install_repo_as_plugin
  rw [hparse]
  simp only [hex, Bool.false_eq_true, if_false]
  constructor
  · split
    · exact List.getLast?_concat _
    · split
      · exact List.getLast?_concat _
      · split
        · exact fsGetLast_append_pair _ _ _
        · exact List.getLast?_concat _
  · intro op hop
    have hloop : ∀ o ∈ (tryCandidates w none (build_candidate_urls owner repo branch)).2.2,
        o = FsOp.writeZip (w.tmpDir ++ "/repo.zip") ∨ o = FsOp.extractTo w.tmpDir :=
      tryCandidates_ops w (build_candidate_urls owner repo branch) none
    split at hop
    · simp only [List.mem_append, List.mem_cons] at hop
      rcases hop with (h | h) | h | h
      · exact Or.inl h
      · rcases hloop op h with h | h
        · exact Or.inr (Or.inr (Or.inl h))
        · exact Or.inr (Or.inr (Or.inr (Or.inl h)))
      · exact Or.inr (Or.inl h)
      · exact absurd h (List.not_mem_nil op)
    · split at hop
      · simp only [List.mem_append, List.mem_cons] at hop
        rcases hop with (h | h) | h | h
        · exact Or.inl h
        · rcases hloop op h with h | h
          · exact Or.inr (Or.inr (Or.inl h))
          · exact Or.inr (Or.inr (Or.inr (Or.inl h)))
        · exact Or.inr (Or.inl h)
        · exact absurd h (List.not_mem_nil op)
      · split at hop
        · rename_i root entries heq hman hmove
          simp only [List.mem_append, List.mem_cons] at hop
          rcases hop with (h | h) | h | h | h
          · exact Or.inl h
          · rcases hloop op h with h | h
            · exact Or.inr (Or.inr (Or.inl h))
            · exact Or.inr (Or.inr (Or.inr (Or.inl h)))
          · obtain ⟨f, hf⟩ := tryCandidates_root_shape w
              (build_candidate_urls owner repo branch) none root entries heq
            exact Or.inr (Or.inr (Or.inr (Or.inr ⟨f, by rw [h, hf]⟩)))
          · exact Or.inr (Or.inl h)
          · exact absurd h (List.not_mem_nil op)
        · rename_i root entries heq hman hmove
          simp only [List.mem_append, List.mem_cons] at hop
          rcases hop with (h | h) | h | h
          · exact Or.inl h
          · rcases hloop op h with h | h
            · exact Or.inr (Or.inr (Or.inl h))
            · exact Or.inr (Or.inr (Or.inr (Or.inl h)))
          · exact Or.inr (Or.inl h)
          · exact absurd h (List.not_mem_nil op)

/-- C9, witness: the all-candidates-fail install at a concrete spec ends its
trace by removing the temporary directory, with every effect classified. -/
theorem c9_install_tmp_cleanup_witness :
    (install_repo_as_plugin "acme/widgets" "plugins" allFailWorld).2.getLast? =
      some (FsOp.rmtree allFailWorld.tmpDir) ∧
    ∀ op ∈ (install_repo_as_plugin "acme/widgets" "plugins" allFailWorld).2,
      op = FsOp.mkdtemp allFailWorld.tmpDir ∨
      op = FsOp.rmtree allFailWorld.tmpDir ∨
      op = FsOp.writeZip (allFailWorld.tmpDir ++ "/repo.zip") ∨
      op = FsOp.extractTo allFailWorld.tmpDir ∨
      ∃ f, op = FsOp.moveDir (allFailWorld.tmpDir ++ "/" ++ f) ("plugins" ++ "/" ++ "widgets") :=
  c9_install_tmp_cleanup "acme/widgets" "plugins" allFailWorld "acme" "widgets" none rfl rfl

end Modulish
